import Mathlib

/-!
Shallow embedding of `src/python-interfaces/can_dbc_reader.py` (function
`get_can`): a line-oriented parser of CAN DBC text into a nested lookup
table keyed by arbitration id, then signal name.

Lines are modelled as `List Char`.  Python `str.split()` (whitespace
tokenisation), `str.replace`, `str.split(sep)`, `int(...)` and
`ast.literal_eval(...)` are each given an explicit executable model below.
Python numeric values are modelled by `PyVal`: `int n` for Python ints and
`float m e` for the Python float denoted by the decimal literal with
integer mantissa `m` and `e` digits after the point (value `m / 10^e`,
exposed by `PyVal.ratVal?`).  Fallible evaluation is `Except PyErr`.
-/

/-- Python runtime errors that the parsing loop can raise. -/
inductive PyErr where
  /-- `ValueError` (for example `int` applied to a non-integer string) or the
  error `ast.literal_eval` raises on a malformed literal. -/
  | valueError : PyErr
  /-- `IndexError`: a list subscript out of range. -/
  | indexError : PyErr
  /-- `KeyError`: a dict subscript with an absent key. -/
  | keyError : PyErr
deriving DecidableEq, Repr

/-- Model of a Python value as produced by `int(...)` / `ast.literal_eval`
on the tokens this parser feeds it: integers, floats (kept as the decimal
literal's mantissa and number of fractional digits), booleans and `None`. -/
inductive PyVal where
  | int (n : Int) : PyVal
  | float (mant : Int) (exp : Nat) : PyVal
  | bool (b : Bool) : PyVal
  | pynone : PyVal
deriving DecidableEq, Repr

/-- The rational number a numeric `PyVal` denotes (`none` on non-numbers):
`float m e` denotes `m / 10^e`. -/
def PyVal.ratVal? : PyVal → Option Rat
  | .int n => some (n : Rat)
  | .float m e => some ((m : Rat) / 10 ^ e)
  | _ => none

/-- A token: one whitespace-delimited word of a line. -/
abbrev Tok := List Char

/-- Whitespace for Python `str.split()` purposes. -/
def isWS (c : Char) : Bool :=
  c = ' ' || c = '\t' || c = '\n' || c = '\r'

/-- Helper for `pySplit`: accumulates the current word (reversed). -/
def pySplitAux : List Char → Tok → List Tok
  | [], acc => if acc.isEmpty then [] else [acc.reverse]
  | c :: cs, acc =>
    if isWS c then
      if acc.isEmpty then pySplitAux cs [] else acc.reverse :: pySplitAux cs []
    else
      pySplitAux cs (c :: acc)

/-- Model of Python `line.split()`: split on runs of whitespace, no empty
tokens. -/
def pySplit (l : List Char) : List Tok :=
  pySplitAux l []

/-- Model of Python `s.replace(a, b)` for single characters. -/
def replaceChar (a b : Char) (t : Tok) : Tok :=
  t.map fun c => if c = a then b else c

/-- Model of Python `s.replace(a, '')` for a single character. -/
def removeChar (a : Char) (t : Tok) : Tok :=
  t.filter fun c => c ≠ a

/-- Model of Python `s.split(sep)` for a one-character separator: keeps
empty pieces, always returns at least one piece. -/
def splitOnChar (sep : Char) : List Char → List (List Char)
  | [] => [[]]
  | c :: cs =>
    match splitOnChar sep cs with
    | [] => [[]]
    | p :: ps => if c = sep then [] :: p :: ps else (c :: p) :: ps

/-- Model of Python list subscripting `xs[i]`: `IndexError` when out of
range. -/
def pyIdx (xs : List Tok) (i : Nat) : Except PyErr Tok :=
  match xs[i]? with
  | some t => .ok t
  | none => .error .indexError

/-- Numeric value of a digit string, most significant digit first. -/
def digitsToNat (t : Tok) : Nat :=
  t.foldl (fun a c => a * 10 + (c.toNat - '0'.toNat)) 0

/-- `t` is a nonempty string of decimal digits. -/
def allDigits (t : Tok) : Bool :=
  !t.isEmpty && t.all Char.isDigit

/-- Model of Python `int(token)` on a whitespace-free token: an optional
single sign followed by a nonempty run of decimal digits; anything else
raises `ValueError`. -/
def pyInt (t : Tok) : Except PyErr Int :=
  match t with
  | [] => .error .valueError
  | c :: rest =>
    if c = '-' then
      if allDigits rest then .ok (-(digitsToNat rest : Int)) else .error .valueError
    else if c = '+' then
      if allDigits rest then .ok (digitsToNat rest : Int) else .error .valueError
    else
      if allDigits (c :: rest) then .ok (digitsToNat (c :: rest) : Int)
      else .error .valueError

/-- Unsigned numeric literal for `ast.literal_eval`: a digit run is an int;
`<digits>.<digits>` with at least one digit overall is a float, recorded as
mantissa and fractional-digit count. -/
def parseUnsignedNum (t : Tok) : Option PyVal :=
  if allDigits t then
    some (.int (digitsToNat t : Int))
  else
    match splitOnChar '.' t with
    | [a, b] =>
      if a.all Char.isDigit && b.all Char.isDigit && (!a.isEmpty || !b.isEmpty) then
        some (.float (digitsToNat a * 10 ^ b.length + digitsToNat b : Int) b.length)
      else
        none
    | _ => none

/-- Negate a numeric `PyVal` (used for a leading sign). -/
def PyVal.neg : PyVal → Option PyVal
  | .int n => some (.int (-n))
  | .float m e => some (.float (-m) e)
  | _ => none

/-- Model of Python `ast.literal_eval(token)` on the whitespace-free,
bracket-free tokens this parser produces: an optionally signed int or
float literal, or the bare literals `True`, `False`, `None`; anything
else raises.  (Exponent, hex, complex and string literals, which
`literal_eval` would also accept, do not occur in any statement below and
are mapped to the error case.) -/
def literalEval (t : Tok) : Except PyErr PyVal :=
  match t with
  | [] => .error .valueError
  | c :: rest =>
    if c = '-' then
      match (parseUnsignedNum rest).bind PyVal.neg with
      | some v => .ok v
      | none => .error .valueError
    else if c = '+' then
      match parseUnsignedNum rest with
      | some v => .ok v
      | none => .error .valueError
    else if c :: rest = [ 'T', 'r', 'u', 'e' ] then .ok (.bool true)
    else if c :: rest = [ 'F', 'a', 'l', 's', 'e' ] then .ok (.bool false)
    else if c :: rest = [ 'N', 'o', 'n', 'e' ] then .ok .pynone
    else
      match parseUnsignedNum (c :: rest) with
      | some v => .ok v
      | none => .error .valueError

/-- One signal's entry: the inner dict built for an `SG_` line. -/
structure SigDef where
  end_bit : Int
  length : Int
  factor : PyVal
  offset : PyVal
  minimum : PyVal
  maximum : PyVal
  descr : Tok
  value : Option PyVal
deriving DecidableEq, Repr

/-- One message's entry: the dict built for a `BO_` line.  `species` maps
signal names to their definitions. -/
structure MsgDef where
  family : Tok
  genus : Tok
  frame_bytes : Int
  species : List (Tok × SigDef)
deriving DecidableEq, Repr

/-- The accumulated lookup table `can_db`. -/
abbrev DB := List (Int × MsgDef)

/-- Python dict assignment `d[k] = v`: replace the binding of `k` in place
if present, else append it. -/
def upsert {κ α : Type} [DecidableEq κ] (k : κ) (v : α) :
    List (κ × α) → List (κ × α)
  | [] => [(k, v)]
  | (k', v') :: rest =>
    if k' = k then (k, v) :: rest else (k', v') :: upsert k v rest

/-- Python dict read `d[k]` as an option. -/
def lookupA {κ α : Type} [DecidableEq κ] (k : κ) :
    List (κ × α) → Option α
  | [] => none
  | (k', v') :: rest => if k' = k then some v' else lookupA k rest

/-- The loop state of `get_can`: the table built so far, the `Flag`
boolean, and `current_BO` (the most recently opened arbitration id). -/
structure St where
  db : DB
  flag : Bool
  cur : Option Int
deriving DecidableEq, Repr

/-- Decidable equality for `Except`, so concrete parse results can be
checked by evaluation. -/
instance {ε α : Type} [DecidableEq ε] [DecidableEq α] :
    DecidableEq (Except ε α) := fun x y =>
  match x, y with
  | .error a, .error b =>
    if h : a = b then .isTrue (congrArg Except.error h)
    else .isFalse fun he => h (Except.error.inj he)
  | .ok a, .ok b =>
    if h : a = b then .isTrue (congrArg Except.ok h)
    else .isFalse fun he => h (Except.ok.inj he)
  | .error _, .ok _ => .isFalse fun he => Except.noConfusion he
  | .ok _, .error _ => .isFalse fun he => Except.noConfusion he

/-- The token `SG_`. -/
def sgTok : Tok := [ 'S', 'G', '_' ]

/-- The token `BO_`. -/
def boTok : Tok := [ 'B', 'O', '_' ]

/-- The bit-range field of an `SG_` line:
`split_range = (la[3].replace('@','|')).split('|')` followed by
`int(split_range[0])`, `int(split_range[1])` (in that evaluation order). -/
def parseBitRange (t : Tok) : Except PyErr (Int × Int) := do
  let split_range := splitOnChar '|' (replaceChar '@' '|' t)
  let s0 ← pyIdx split_range 0
  let e ← pyInt s0
  let s1 ← pyIdx split_range 1
  let l ← pyInt s1
  return (e, l)

/-- The factor/offset field of an `SG_` line:
`factor_offset = (la[4].replace('(','').replace(')','')).split(",")`
followed by `literal_eval(factor_offset[0])`,
`literal_eval(factor_offset[1])`. -/
def parseFactorOffset (t : Tok) : Except PyErr (PyVal × PyVal) := do
  let factor_offset := splitOnChar ',' (removeChar ')' (removeChar '(' t))
  let f ← (pyIdx factor_offset 0).bind literalEval
  let o ← (pyIdx factor_offset 1).bind literalEval
  return (f, o)

/-- The min/max field of an `SG_` line:
`value_range = (la[5].replace('[','').replace(']','')).split("|")`
followed by `literal_eval(value_range[0])`,
`literal_eval(value_range[1])`. -/
def parseMinMax (t : Tok) : Except PyErr (PyVal × PyVal) := do
  let value_range := splitOnChar '|' (removeChar ']' (removeChar '[' t))
  let mn ← (pyIdx value_range 0).bind literalEval
  let mx ← (pyIdx value_range 1).bind literalEval
  return (mn, mx)

/-- One iteration of the `for line in dbc_file` loop of `get_can`,
mirroring the Python branch order and evaluation order:
blank line / `Flag and la[0] == 'SG_'` / `la[0] == 'BO_'` / `pass`. -/
def stepLine (st : St) (line : List Char) : Except PyErr St :=
  match pySplit line with
  | [] => .ok ⟨st.db, false, none⟩
  | t0 :: rest =>
    let la := t0 :: rest
    if st.flag && t0 = sgTok then do
      let t3 ← pyIdx la 3
      let t4 ← pyIdx la 4
      let t5 ← pyIdx la 5
      let (e, len) ← parseBitRange t3
      let (f, o) ← parseFactorOffset t4
      let (mn, mx) ← parseMinMax t5
      let d ← pyIdx la 6
      match st.cur with
      | none => .error .keyError
      | some k =>
        match lookupA k st.db with
        | none => .error .keyError
        | some msg => do
          let name ← pyIdx la 1
          let sig : SigDef := ⟨e, len, f, o, mn, mx, d, none⟩
          .ok ⟨upsert k { msg with species := upsert name sig msg.species } st.db,
               st.flag, st.cur⟩
    else if t0 = boTok then do
      let t4 ← pyIdx la 4
      let t2 ← pyIdx la 2
      let t3 ← pyIdx la 3
      let fb ← pyInt t3
      let t1 ← pyIdx la 1
      let id ← pyInt t1
      .ok ⟨upsert id ⟨t4, t2.dropLast, fb, []⟩ st.db, true, some id⟩
    else
      .ok st

/-- Run the loop over a list of lines from a given state. -/
def stepAll (st : St) : List (List Char) → Except PyErr St
  | [] => .ok st
  | l :: ls =>
    match stepLine st l with
    | .error e => .error e
    | .ok st' => stepAll st' ls

/-- The initial loop state: `can_db = {}`, `Flag = False`, no
`current_BO`. -/
def initSt : St := ⟨[], false, none⟩

/-- `get_can`, on its input decomposed into lines: run the loop from the
initial state and return the final `can_db`. -/
def get_can (lines : List (List Char)) : Except PyErr DB :=
  match stepAll initSt lines with
  | .ok st => .ok st.db
  | .error e => .error e

/-- Modelled from the spec: a "valid numeric literal (integer or decimal,
optionally negative)" — an optional leading minus sign followed by either a
nonempty digit run or a decimal `a.b` with digits on both sides and at
least one digit overall.  Used only to compare the spec's acceptance
condition with what the code accepts. -/
def isNumericLit (t : Tok) : Bool :=
  let u := match t with
    | '-' :: r => r
    | r => r
  allDigits u ||
    (match splitOnChar '.' u with
     | [a, b] => a.all Char.isDigit && b.all Char.isDigit && (!a.isEmpty || !b.isEmpty)
     | _ => false)

/-- Line 1 of the spec's end-to-end scenario. -/
def c6line1 : List Char := "BO_ 100 EngineData: 8 PowertrainECU".data

/-- Line 2 of the spec's end-to-end scenario. -/
def c6line2 : List Char := " SG_ RPM : 15|16 (0.25,0) [0|16383.75] \"engine speed\"".data

/-- Line 3 of the spec's end-to-end scenario. -/
def c6line3 : List Char := " SG_ Temp : 7|8 (1,-40) [-40|215] \"coolant temp\"".data

/-- Line 4 of the spec's end-to-end scenario: blank. -/
def c6line4 : List Char := "".data

/-- Line 5 of the spec's end-to-end scenario. -/
def c6line5 : List Char := "BO_ 200 BrakeData: 4 ChassisECU".data

/-- Line 6 of the spec's end-to-end scenario. -/
def c6line6 : List Char := " SG_ Pressure : 31|16 (0.1,0) [0|6553.5] \"brake pressure\"".data

/-- The spec's end-to-end scenario input. -/
def c6input : List (List Char) :=
  [c6line1, c6line2, c6line3, c6line4, c6line5, c6line6]

/-- The signal stored for `name` under arbitration id `id` in a parse
result (`none` if the parse failed or either key is absent). -/
def sigOf (r : Except PyErr DB) (id : Int) (name : Tok) : Option SigDef :=
  match r with
  | .ok db => (lookupA id db).bind fun m => lookupA name m.species
  | .error _ => none

/-- The arbitration-id keys of a parse result, in table order. -/
def keysOf (r : Except PyErr DB) : Option (List Int) :=
  match r with
  | .ok db => some (db.map Prod.fst)
  | .error _ => none

/-- The signal names of message `id` of a parse result, in table order. -/
def sigNamesOf (r : Except PyErr DB) (id : Int) : Option (List Tok) :=
  match r with
  | .ok db => (lookupA id db).map fun m => m.species.map Prod.fst
  | .error _ => none

/-- The invariant behind the signal-entry branch: whenever `Flag` is set,
`current_BO` holds an arbitration id that is a key of the table, so
`can_db[current_BO]` cannot fail. -/
def msgOpenInv (st : St) : Prop :=
  st.flag = true → ∃ k, st.cur = some k ∧ lookupA k st.db ≠ none

/-! ## General lemmas about the embedding's building blocks -/

theorem bind_ok_ex {α β : Type} (a : α) (f : α → Except PyErr β) :
    (Except.ok a >>= f) = f a := rfl

theorem bind_error_ex {α β : Type} (e : PyErr) (f : α → Except PyErr β) :
    ((Except.error e : Except PyErr α) >>= f) = .error e := rfl

theorem pyIdx_ok {xs : List Tok} {i : Nat} {t : Tok} (h : xs[i]? = some t) :
    pyIdx xs i = .ok t := by
  simp [pyIdx, h]

theorem lookupA_upsert_self {κ α : Type} [DecidableEq κ] (k : κ) (v : α)
    (l : List (κ × α)) : lookupA k (upsert k v l) = some v := by
  induction l with
  | nil => simp [upsert, lookupA]
  | cons p rest ih =>
    obtain ⟨k', v'⟩ := p
    by_cases h : k' = k <;> simp [upsert, lookupA, h, ih]

theorem lookupA_upsert_ne {κ α : Type} [DecidableEq κ] {j k : κ} (v : α)
    (l : List (κ × α)) (h : j ≠ k) :
    lookupA j (upsert k v l) = lookupA j l := by
  have hkj : ¬ k = j := fun e => h (Eq.symm e)
  induction l with
  | nil => simp [upsert, lookupA, hkj]
  | cons p rest ih =>
    obtain ⟨k', v'⟩ := p
    by_cases hk : k' = k
    · subst hk
      simp [upsert, lookupA, hkj]
    · simp [upsert, lookupA, hk, ih]

theorem pyInt_digits {t : Tok} (h : allDigits t = true) :
    pyInt t = .ok (digitsToNat t : Int) := by
  match t with
  | [] => simp [allDigits] at h
  | c :: r =>
    have hall : (c :: r).all Char.isDigit = true := by
      simpa [allDigits] using h
    have hc : c.isDigit = true := by
      simpa using (List.all_eq_true.mp hall) c (by simp)
    have h1 : ¬ c = '-' := by rintro rfl; revert hc; decide
    have h2 : ¬ c = '+' := by rintro rfl; revert hc; decide
    simp [pyInt, h1, h2, h]

theorem not_mem_of_all_digits {c : Char} {t : Tok}
    (hc : c.isDigit = false) (h : t.all Char.isDigit = true) : c ∉ t := by
  intro hm
  have := (List.all_eq_true.mp h) c hm
  simp [hc] at this

theorem splitOnChar_of_not_mem {sep : Char} {a : List Char} (h : sep ∉ a) :
    splitOnChar sep a = [a] := by
  induction a with
  | nil => rfl
  | cons c cs ih =>
    have hcs : sep ∉ cs := fun m => h (List.mem_cons_of_mem _ m)
    have hc : ¬ c = sep := fun e => h (by simp [e])
    simp [splitOnChar, ih hcs, hc]

theorem splitOnChar_append {sep : Char} {a b : List Char}
    (ha : sep ∉ a) (hb : sep ∉ b) :
    splitOnChar sep (a ++ sep :: b) = [a, b] := by
  induction a with
  | nil =>
    simp [splitOnChar, splitOnChar_of_not_mem hb]
  | cons c cs ih =>
    have hcs : sep ∉ cs := fun m => ha (List.mem_cons_of_mem _ m)
    have hc : ¬ c = sep := fun e => ha (by simp [e])
    simp only [List.cons_append, splitOnChar, List.append_eq, ih hcs, hc, if_false]

theorem replaceChar_of_not_mem {a : Char} (b : Char) {t : Tok} (h : a ∉ t) :
    replaceChar a b t = t := by
  induction t with
  | nil => rfl
  | cons c cs ih =>
    have hcs : a ∉ cs := fun m => h (List.mem_cons_of_mem _ m)
    have hc : ¬ c = a := fun e => h (by simp [e])
    simp [replaceChar, hc] at ih ⊢
    exact ih hcs

theorem allDigits_all {t : Tok} (h : allDigits t = true) :
    t.all Char.isDigit = true := by
  simp only [allDigits, Bool.and_eq_true] at h
  exact h.2

theorem replaceChar_append_sep {a b : List Char} {sep : Char}
    (hsep : sep = '@' ∨ sep = '|') (hA : '@' ∉ a) (hB : '@' ∉ b) :
    replaceChar '@' '|' (a ++ sep :: b) = a ++ '|' :: b := by
  have h1 : replaceChar '@' '|' a = a := replaceChar_of_not_mem _ hA
  have h2 : replaceChar '@' '|' b = b := replaceChar_of_not_mem _ hB
  rcases hsep with rfl | rfl <;>
  · unfold replaceChar at h1 h2 ⊢
    rw [List.map_append, List.map_cons, h1, h2]
    simp

theorem parseBitRange_digits {a b : List Char} {sep : Char}
    (hsep : sep = '@' ∨ sep = '|')
    (ha : allDigits a = true) (hb : allDigits b = true) :
    parseBitRange (a ++ sep :: b) =
      .ok ((digitsToNat a : Int), (digitsToNat b : Int)) := by
  have hAa : '@' ∉ a := not_mem_of_all_digits (by decide) (allDigits_all ha)
  have hAb : '@' ∉ b := not_mem_of_all_digits (by decide) (allDigits_all hb)
  have hPa : '|' ∉ a := not_mem_of_all_digits (by decide) (allDigits_all ha)
  have hPb : '|' ∉ b := not_mem_of_all_digits (by decide) (allDigits_all hb)
  unfold parseBitRange
  rw [replaceChar_append_sep hsep hAa hAb, splitOnChar_append hPa hPb]
  simp [pyIdx, pyInt_digits ha, pyInt_digits hb, bind_ok_ex]

/-! ## The two productive branches of the loop body -/

theorem stepLine_bo {st : St} {line : List Char} {ts : List Tok}
    {t1 t2 t3 t4 : Tok} {id fb : Int}
    (hsplit : pySplit line = boTok :: ts)
    (h1 : ts[0]? = some t1) (h2 : ts[1]? = some t2)
    (h3 : ts[2]? = some t3) (h4 : ts[3]? = some t4)
    (hid : pyInt t1 = .ok id) (hfb : pyInt t3 = .ok fb) :
    stepLine st line =
      .ok ⟨upsert id ⟨t4, t2.dropLast, fb, []⟩ st.db, true, some id⟩ := by
  have hne : ¬ (boTok = sgTok) := by decide
  unfold stepLine
  rw [hsplit]
  simp [hne, pyIdx, h1, h2, h3, h4, hid, hfb, bind_ok_ex]

theorem stepLine_sg {st : St} {line : List Char} {ts : List Tok}
    {k : Int} {msg : MsgDef} {name t3 t4 t5 d : Tok}
    {e len : Int} {f o mn mx : PyVal}
    (hsplit : pySplit line = sgTok :: ts)
    (hflag : st.flag = true) (hcur : st.cur = some k)
    (hdb : lookupA k st.db = some msg)
    (h3 : ts[2]? = some t3) (h4 : ts[3]? = some t4) (h5 : ts[4]? = some t5)
    (h6 : ts[5]? = some d) (h1 : ts[0]? = some name)
    (hbr : parseBitRange t3 = .ok (e, len))
    (hfo : parseFactorOffset t4 = .ok (f, o))
    (hmm : parseMinMax t5 = .ok (mn, mx)) :
    stepLine st line =
      .ok ⟨upsert k
            { msg with
              species := upsert name ⟨e, len, f, o, mn, mx, d, none⟩ msg.species }
            st.db,
           true, some k⟩ := by
  unfold stepLine
  rw [hsplit]
  simp [hflag, hcur, hdb, pyIdx, h3, h4, h5, h6, h1, hbr, hfo, hmm, bind_ok_ex]

/-! ## Claim C1 -/

/-- Claim C1 counterexample: on the input whose very first (and only) line
is a well-formed `SG_` line — so no message is open — `get_can` raises
nothing and returns a Database (the empty table), contradicting the claim
that a StructuralError is raised and no Database is returned. -/
theorem c1_counterexample :
    get_can [" SG_ RPM : 15|16 (0.25,0) [0|16383.75] \"engine speed\"".data] =
      .ok [] := by decide

/-- Claim C1 amended: an `SG_` line encountered while no message is
currently open (`Flag` false, whether because no `BO_` line has occurred or
because a blank line reset it) is silently skipped: the loop step succeeds
and returns the state unchanged, so the parse continues and still returns a
Database. -/
theorem c1_sg_without_open_is_skipped {st : St} {line : List Char}
    {ts : List Tok} (hflag : st.flag = false)
    (hsplit : pySplit line = sgTok :: ts) :
    stepLine st line = .ok st := by
  have hne : ¬ (sgTok = boTok) := by decide
  unfold stepLine
  rw [hsplit]
  simp [hflag, hne]

/-- Witness for C1's amended theorem at a concrete state and line. -/
theorem c1_witness :
    stepLine initSt (" SG_ Temp : 7|8 (1,-40) [-40|215] x".data) = .ok initSt :=
  @c1_sg_without_open_is_skipped initSt
    (" SG_ Temp : 7|8 (1,-40) [-40|215] x".data)
    ["Temp".data, ":".data, "7|8".data, "(1,-40)".data, "[-40|215]".data,
     "x".data]
    rfl (by decide)

/-! ## Claim C9 -/

/-- Claim C9: for every line whose first whitespace-delimited token is
`BO_` (and whose two numeric fields parse), the new message entry is built
from the integer value of token 2 as the arbitration id, token 3 with its
trailing delimiter character stripped as the genus, the integer value of
token 4 as the frame byte count, and token 5 as the family, and it is
stored under the arbitration id, which becomes the open message. -/
theorem c9_bo_extraction {st : St} {line : List Char} {ts : List Tok}
    {t1 t2 t3 t4 : Tok} {id fb : Int}
    (hsplit : pySplit line = boTok :: ts)
    (h1 : ts[0]? = some t1) (h2 : ts[1]? = some t2)
    (h3 : ts[2]? = some t3) (h4 : ts[3]? = some t4)
    (hid : pyInt t1 = .ok id) (hfb : pyInt t3 = .ok fb) :
    stepLine st line =
      .ok ⟨upsert id ⟨t4, t2.dropLast, fb, []⟩ st.db, true, some id⟩ :=
  stepLine_bo hsplit h1 h2 h3 h4 hid hfb

/-- Witness for C9 at the concrete line `BO_ 100 EngineData: 8
PowertrainECU` from the empty initial state. -/
theorem c9_witness :
    stepLine initSt c6line1 =
      .ok ⟨[(100, ⟨"PowertrainECU".data, "EngineData".data, 8, []⟩)],
           true, some 100⟩ :=
  @c9_bo_extraction initSt c6line1
    ["100".data, "EngineData:".data, "8".data, "PowertrainECU".data]
    "100".data "EngineData:".data "8".data "PowertrainECU".data 100 8
    (by decide) rfl rfl rfl rfl (by decide) (by decide)

/-! ## Claim C4 -/

/-- Claim C4: a successfully processed `BO_` line installs exactly one
Database entry, keyed by its parsed arbitration id: the entry's family,
genus and frame bytes come from this line and its signal mapping is empty
— so a later `BO_` line reusing an id replaces the earlier entry entirely
and discards its accumulated signals — while every other key's entry is
left unchanged. -/
theorem c4_bo_overwrite {st : St} {line : List Char} {ts : List Tok}
    {t1 t2 t3 t4 : Tok} {id fb : Int}
    (hsplit : pySplit line = boTok :: ts)
    (h1 : ts[0]? = some t1) (h2 : ts[1]? = some t2)
    (h3 : ts[2]? = some t3) (h4 : ts[3]? = some t4)
    (hid : pyInt t1 = .ok id) (hfb : pyInt t3 = .ok fb) :
    ∃ st', stepLine st line = .ok st'
      ∧ st'.db = upsert id ⟨t4, t2.dropLast, fb, []⟩ st.db
      ∧ lookupA id st'.db = some ⟨t4, t2.dropLast, fb, []⟩
      ∧ ∀ j : Int, j ≠ id → lookupA j st'.db = lookupA j st.db := by
  refine ⟨_, stepLine_bo hsplit h1 h2 h3 h4 hid hfb, rfl, ?_, ?_⟩
  · exact lookupA_upsert_self ..
  · intro j hj
    exact lookupA_upsert_ne _ _ hj

/-- Witness for C4: reprocessing id 100 from a state whose entry 100
already holds a signal yields an entry with an empty signal mapping. -/
theorem c4_witness :
    ∃ st',
      stepLine
        ⟨[(100, ⟨"F".data, "G".data, 8,
           [("S".data, ⟨1, 2, .int 1, .int 0, .int 0, .int 1, "d".data, none⟩)]⟩)],
         false, none⟩
        ("BO_ 100 BrakeData: 4 ChassisECU".data) = .ok st'
      ∧ lookupA 100 st'.db = some ⟨"ChassisECU".data, "BrakeData".data, 4, []⟩ := by
  obtain ⟨st', hstep, _, hlook, _⟩ :=
    @c4_bo_overwrite
      ⟨[(100, ⟨"F".data, "G".data, 8,
         [("S".data, ⟨1, 2, .int 1, .int 0, .int 0, .int 1, "d".data, none⟩)]⟩)],
       false, none⟩
      ("BO_ 100 BrakeData: 4 ChassisECU".data)
      ["100".data, "BrakeData:".data, "4".data, "ChassisECU".data]
      "100".data "BrakeData:".data "4".data "ChassisECU".data 100 4
      (by decide) rfl rfl rfl rfl (by decide) (by decide)
  exact ⟨st', hstep, hlook⟩

/-! ## Claim C7 -/

/-- Claim C7: a blank line (no tokens) clears the open-message state while
leaving the Database unchanged, and a non-blank line that is neither a
`BO_` line nor — while a message is open — an `SG_` line changes nothing
at all. -/
theorem c7_irrelevant_lines (st : St) (line : List Char) :
    (pySplit line = [] → stepLine st line = .ok ⟨st.db, false, none⟩)
    ∧ ∀ t0 ts, pySplit line = t0 :: ts → t0 ≠ boTok →
        (st.flag = true → t0 ≠ sgTok) → stepLine st line = .ok st := by
  constructor
  · intro h
    unfold stepLine
    rw [h]
  · intro t0 ts h hbo hsg
    have hguard : (st.flag && decide (t0 = sgTok)) = false := by
      cases hf : st.flag
      · simp
      · simp [hsg hf]
    unfold stepLine
    rw [h]
    simp [hguard, hbo]

/-- Witness for C7: a blank line from an open-message state, and a
`VERSION` line from the same state. -/
theorem c7_witness :
    stepLine ⟨[], true, some 5⟩ ("   ".data) = .ok ⟨[], false, none⟩
    ∧ stepLine ⟨[], true, some 5⟩ ("VERSION x".data) = .ok ⟨[], true, some 5⟩ :=
  ⟨(c7_irrelevant_lines ⟨[], true, some 5⟩ ("   ".data)).1 (by decide),
   (c7_irrelevant_lines ⟨[], true, some 5⟩ ("VERSION x".data)).2
     "VERSION".data ["x".data] (by decide) (by decide) (by decide)⟩

/-! ## Claim C2 -/

theorem stepAll_cases (ls : List (List Char)) : ∀ st : St,
    (∃ st', stepAll st ls = .ok st')
    ∨ (∃ e p l s st', ls = p ++ l :: s ∧ stepAll st p = .ok st'
        ∧ stepLine st' l = .error e ∧ stepAll st ls = .error e) := by
  induction ls with
  | nil => exact fun st => .inl ⟨st, rfl⟩
  | cons l ls ih =>
    intro st
    cases hstep : stepLine st l with
    | error e =>
      refine .inr ⟨e, [], l, ls, st, rfl, rfl, hstep, ?_⟩
      simp [stepAll, hstep]
    | ok st1 =>
      rcases ih st1 with ⟨st', h⟩ | ⟨e, p, l', s, st', hls, hp, herr, hall⟩
      · exact .inl ⟨st', by simp [stepAll, hstep, h]⟩
      · refine .inr ⟨e, l :: p, l', s, st', by simp [hls], ?_, herr, ?_⟩
        · simp [stepAll, hstep, hp]
        · simp [stepAll, hstep, hall]

/-- Claim C2: the parse is all-or-nothing.  For every input it either
consumes every line successfully and returns the complete final table, or
some line's processing raises an error after an error-free prefix, and
exactly that error (and no table) is the result of `get_can`. -/
theorem c2_all_or_nothing (ls : List (List Char)) :
    (∃ st, stepAll initSt ls = .ok st ∧ get_can ls = .ok st.db)
    ∨ (∃ e p l s st, ls = p ++ l :: s ∧ stepAll initSt p = .ok st
        ∧ stepLine st l = .error e ∧ get_can ls = .error e) := by
  rcases stepAll_cases ls initSt with ⟨st, h⟩ | ⟨e, p, l, s, st, hls, hp, herr, hall⟩
  · exact .inl ⟨st, h, by simp [get_can, h]⟩
  · exact .inr ⟨e, p, l, s, st, hls, hp, herr, by simp [get_can, hall]⟩

/-! ## Claim C10 -/

theorem exBind_no_key {α β : Type} {x : Except PyErr α} {f : α → Except PyErr β}
    (hx : x ≠ .error .keyError) (hf : ∀ a, f a ≠ .error .keyError) :
    x.bind f ≠ .error .keyError := by
  cases x with
  | error e => simpa [Except.bind] using hx
  | ok a => simpa [Except.bind] using hf a

theorem bind_no_key {α β : Type} {x : Except PyErr α} {f : α → Except PyErr β}
    (hx : x ≠ .error .keyError) (hf : ∀ a, f a ≠ .error .keyError) :
    (x >>= f) ≠ .error .keyError :=
  exBind_no_key hx hf

theorem pure_ok_ex {α : Type} (a : α) : (pure a : Except PyErr α) = .ok a := rfl

theorem pyIdx_no_key {xs : List Tok} {i : Nat} : pyIdx xs i ≠ .error .keyError := by
  unfold pyIdx
  cases xs[i]? <;> simp

theorem pyInt_no_key {t : Tok} : pyInt t ≠ .error .keyError := by
  cases t with
  | nil => simp [pyInt]
  | cons c r =>
    simp only [pyInt]
    split_ifs <;> simp

theorem literalEval_no_key {t : Tok} : literalEval t ≠ .error .keyError := by
  cases t with
  | nil => simp [literalEval]
  | cons c r =>
    simp only [literalEval]
    split_ifs <;> try simp
    all_goals (split <;> simp)

theorem parseBitRange_no_key {t : Tok} : parseBitRange t ≠ .error .keyError := by
  unfold parseBitRange
  refine bind_no_key pyIdx_no_key fun s0 => ?_
  refine bind_no_key pyInt_no_key fun e => ?_
  refine bind_no_key pyIdx_no_key fun s1 => ?_
  refine bind_no_key pyInt_no_key fun l => ?_
  simp [pure_ok_ex]

theorem parseFactorOffset_no_key {t : Tok} :
    parseFactorOffset t ≠ .error .keyError := by
  unfold parseFactorOffset
  refine bind_no_key (exBind_no_key pyIdx_no_key fun a => literalEval_no_key)
    fun f => ?_
  refine bind_no_key (exBind_no_key pyIdx_no_key fun a => literalEval_no_key)
    fun o => ?_
  simp [pure_ok_ex]

theorem parseMinMax_no_key {t : Tok} : parseMinMax t ≠ .error .keyError := by
  unfold parseMinMax
  refine bind_no_key (exBind_no_key pyIdx_no_key fun a => literalEval_no_key)
    fun mn => ?_
  refine bind_no_key (exBind_no_key pyIdx_no_key fun a => literalEval_no_key)
    fun mx => ?_
  simp [pure_ok_ex]

theorem stepLine_cases {st : St} (line : List Char) (hinv : msgOpenInv st) :
    (∃ st', stepLine st line = .ok st' ∧ msgOpenInv st')
    ∨ (∃ e, stepLine st line = .error e ∧ e ≠ .keyError) := by
  unfold stepLine
  cases hls : pySplit line with
  | nil =>
    exact .inl ⟨⟨st.db, false, none⟩, rfl, by simp [msgOpenInv]⟩
  | cons t0 rest =>
    dsimp only
    split_ifs with hg hb
    · have hflag : st.flag = true := ((Bool.and_eq_true _ _).mp hg).1
      obtain ⟨k, hcur, hlook⟩ := hinv hflag
      cases hl : lookupA k st.db with
      | none => exact absurd hl hlook
      | some msg =>
        rcases h3 : pyIdx (t0 :: rest) 3 with e | t3
        · exact .inr ⟨e, rfl, fun he => pyIdx_no_key (he ▸ h3)⟩
        simp only [bind_ok_ex]
        rcases h4 : pyIdx (t0 :: rest) 4 with e | t4
        · exact .inr ⟨e, rfl, fun he => pyIdx_no_key (he ▸ h4)⟩
        simp only [bind_ok_ex]
        rcases h5 : pyIdx (t0 :: rest) 5 with e | t5
        · exact .inr ⟨e, rfl, fun he => pyIdx_no_key (he ▸ h5)⟩
        simp only [bind_ok_ex]
        rcases hbr : parseBitRange t3 with e | p
        · exact .inr ⟨e, rfl, fun he => parseBitRange_no_key (he ▸ hbr)⟩
        obtain ⟨eb, ln⟩ := p
        simp only [bind_ok_ex]
        rcases hfo : parseFactorOffset t4 with e | q
        · exact .inr ⟨e, rfl, fun he => parseFactorOffset_no_key (he ▸ hfo)⟩
        obtain ⟨f, o⟩ := q
        simp only [bind_ok_ex]
        rcases hmm : parseMinMax t5 with e | r
        · exact .inr ⟨e, rfl, fun he => parseMinMax_no_key (he ▸ hmm)⟩
        obtain ⟨mn, mx⟩ := r
        simp only [bind_ok_ex]
        rcases h6 : pyIdx (t0 :: rest) 6 with e | d
        · exact .inr ⟨e, rfl, fun he => pyIdx_no_key (he ▸ h6)⟩
        simp only [bind_ok_ex]
        rw [hcur]
        dsimp only
        rw [hl]
        dsimp only
        rcases h1 : pyIdx (t0 :: rest) 1 with e | name
        · exact .inr ⟨e, rfl, fun he => pyIdx_no_key (he ▸ h1)⟩
        simp only [bind_ok_ex]
        refine .inl ⟨_, rfl, fun _ => ⟨k, rfl, ?_⟩⟩
        rw [lookupA_upsert_self]
        simp
    · rcases h4 : pyIdx (t0 :: rest) 4 with e | t4
      · exact .inr ⟨e, rfl, fun he => pyIdx_no_key (he ▸ h4)⟩
      simp only [bind_ok_ex]
      rcases h2 : pyIdx (t0 :: rest) 2 with e | t2
      · exact .inr ⟨e, rfl, fun he => pyIdx_no_key (he ▸ h2)⟩
      simp only [bind_ok_ex]
      rcases h3 : pyIdx (t0 :: rest) 3 with e | t3
      · exact .inr ⟨e, rfl, fun he => pyIdx_no_key (he ▸ h3)⟩
      simp only [bind_ok_ex]
      rcases hfb : pyInt t3 with e | fb
      · exact .inr ⟨e, rfl, fun he => pyInt_no_key (he ▸ hfb)⟩
      simp only [bind_ok_ex]
      rcases h1 : pyIdx (t0 :: rest) 1 with e | t1
      · exact .inr ⟨e, rfl, fun he => pyIdx_no_key (he ▸ h1)⟩
      simp only [bind_ok_ex]
      rcases hid : pyInt t1 with e | id
      · exact .inr ⟨e, rfl, fun he => pyInt_no_key (he ▸ hid)⟩
      simp only [bind_ok_ex]
      refine .inl ⟨_, rfl, fun _ => ⟨id, rfl, ?_⟩⟩
      rw [lookupA_upsert_self]
      simp
    · exact .inl ⟨st, rfl, hinv⟩

theorem stepAll_inv (ls : List (List Char)) : ∀ st : St, msgOpenInv st →
    (∀ st', stepAll st ls = .ok st' → msgOpenInv st')
    ∧ stepAll st ls ≠ .error .keyError := by
  induction ls with
  | nil =>
    intro st hinv
    exact ⟨fun st' h => (Except.ok.inj h) ▸ hinv, by simp [stepAll]⟩
  | cons l ls ih =>
    intro st hinv
    rcases stepLine_cases l hinv with ⟨st1, hok, hinv1⟩ | ⟨e, herr, hne⟩
    · refine ⟨?_, ?_⟩
      · intro st' h
        simp only [stepAll, hok] at h
        exact (ih st1 hinv1).1 st' h
      · simp only [stepAll, hok]
        exact (ih st1 hinv1).2
    · refine ⟨?_, ?_⟩
      · intro st' h
        simp [stepAll, herr] at h
      · intro hk
        simp only [stepAll, herr] at hk
        exact hne (Except.error.inj hk)

/-- Claim C10: from the initial state, every successfully processed prefix
of the input leaves the loop state satisfying the open-message invariant —
whenever `Flag` is set, `current_BO` is a key already present in the table
— and consequently the `can_db[current_BO]` lookup in the signal branch
never fails: the loop never raises `KeyError` on any input. -/
theorem c10_open_message_invariant (ls : List (List Char)) :
    (∀ st, stepAll initSt ls = .ok st → msgOpenInv st)
    ∧ stepAll initSt ls ≠ .error .keyError :=
  stepAll_inv ls initSt (by simp [msgOpenInv, initSt])

/-- Witness for C10 on a one-line input: the state after `BO_ 100 ...`
satisfies the open-message invariant. -/
theorem c10_witness :
    msgOpenInv ⟨[(100, ⟨"PowertrainECU".data, "EngineData".data, 8, []⟩)],
                true, some 100⟩ :=
  (c10_open_message_invariant [c6line1]).1
    ⟨[(100, ⟨"PowertrainECU".data, "EngineData".data, 8, []⟩)], true, some 100⟩
    (by decide)

/-! ## Claim C5 -/

/-- Claim C5: for every `SG_` line processed under an open message whose
bit-range token is `<e>@<l>` or `<e>|<l>` with digit runs `e` and `l`,
both separator characters are accepted (`@` is normalized to `|`) and the
stored signal has `end_bit = e` and `length = l`. -/
theorem c5_bit_range {st : St} {line : List Char} {ts : List Tok}
    {k : Int} {msg : MsgDef} {name t4 t5 d : Tok} {a b : List Char}
    {sep : Char} {f o mn mx : PyVal}
    (hsplit : pySplit line = sgTok :: ts)
    (hflag : st.flag = true) (hcur : st.cur = some k)
    (hdb : lookupA k st.db = some msg)
    (h3 : ts[2]? = some (a ++ sep :: b))
    (hsep : sep = '@' ∨ sep = '|')
    (ha : allDigits a = true) (hb : allDigits b = true)
    (h4 : ts[3]? = some t4) (h5 : ts[4]? = some t5)
    (h6 : ts[5]? = some d) (h1 : ts[0]? = some name)
    (hfo : parseFactorOffset t4 = .ok (f, o))
    (hmm : parseMinMax t5 = .ok (mn, mx)) :
    ∃ st' sig, stepLine st line = .ok st'
      ∧ lookupA k st'.db =
          some { msg with species := upsert name sig msg.species }
      ∧ sig.end_bit = (digitsToNat a : Int)
      ∧ sig.length = (digitsToNat b : Int) := by
  have hbr := parseBitRange_digits hsep ha hb
  refine ⟨_, ⟨(digitsToNat a : Int), (digitsToNat b : Int), f, o, mn, mx, d, none⟩,
    stepLine_sg hsplit hflag hcur hdb h3 h4 h5 h6 h1 hbr hfo hmm, ?_, rfl, rfl⟩
  exact lookupA_upsert_self ..

/-- Witness for C5: both `12@4` and `12|4` store `end_bit = 12`,
`length = 4`. -/
theorem c5_witness :
    (∃ st' sig,
      stepLine ⟨[(7, ⟨"F".data, "G".data, 8, []⟩)], true, some 7⟩
          (" SG_ RPM : 12@4 (1,0) [0|1] d".data) = .ok st'
        ∧ lookupA 7 st'.db =
            some ⟨"F".data, "G".data, 8, [("RPM".data, sig)]⟩
        ∧ sig.end_bit = 12 ∧ sig.length = 4)
    ∧ (∃ st' sig,
      stepLine ⟨[(7, ⟨"F".data, "G".data, 8, []⟩)], true, some 7⟩
          (" SG_ RPM : 12|4 (1,0) [0|1] d".data) = .ok st'
        ∧ lookupA 7 st'.db =
            some ⟨"F".data, "G".data, 8, [("RPM".data, sig)]⟩
        ∧ sig.end_bit = 12 ∧ sig.length = 4) :=
  ⟨@c5_bit_range ⟨[(7, ⟨"F".data, "G".data, 8, []⟩)], true, some 7⟩
      (" SG_ RPM : 12@4 (1,0) [0|1] d".data)
      ["RPM".data, ":".data, "12@4".data, "(1,0)".data, "[0|1]".data, "d".data]
      7 ⟨"F".data, "G".data, 8, []⟩ "RPM".data "(1,0)".data "[0|1]".data
      "d".data "12".data "4".data '@' (.int 1) (.int 0) (.int 0) (.int 1)
      (by decide) rfl rfl (by decide) (by decide) (.inl rfl) (by decide)
      (by decide) rfl rfl rfl rfl (by decide) (by decide),
   @c5_bit_range ⟨[(7, ⟨"F".data, "G".data, 8, []⟩)], true, some 7⟩
      (" SG_ RPM : 12|4 (1,0) [0|1] d".data)
      ["RPM".data, ":".data, "12|4".data, "(1,0)".data, "[0|1]".data, "d".data]
      7 ⟨"F".data, "G".data, 8, []⟩ "RPM".data "(1,0)".data "[0|1]".data
      "d".data "12".data "4".data '|' (.int 1) (.int 0) (.int 0) (.int 1)
      (by decide) rfl rfl (by decide) (by decide) (.inr rfl) (by decide)
      (by decide) rfl rfl rfl rfl (by decide) (by decide)⟩

/-! ## Claim C3 -/

theorem allDigits_dot_false {l : List Char} (h : ('.' : Char) ∈ l) :
    allDigits l = false := by
  have hall : l.all Char.isDigit = false := by
    cases hx : l.all Char.isDigit
    · rfl
    · have h2 : Char.isDigit '.' = true := by
        simpa using (List.all_eq_true.mp hx) '.' h
      exact absurd h2 (by decide)
  simp [allDigits, hall]

theorem parseUnsignedNum_digits {t : Tok} (h : allDigits t = true) :
    parseUnsignedNum t = some (.int (digitsToNat t : Int)) := by
  simp [parseUnsignedNum, h]

theorem parseUnsignedNum_dec {a b : List Char}
    (ha : a.all Char.isDigit = true) (hb : b.all Char.isDigit = true)
    (hne : a.isEmpty = false ∨ b.isEmpty = false) :
    parseUnsignedNum (a ++ '.' :: b) =
      some (.float (digitsToNat a * 10 ^ b.length + digitsToNat b : Int)
            b.length) := by
  have hmem : ('.' : Char) ∈ a ++ '.' :: b := by simp
  have hsplit : splitOnChar '.' (a ++ '.' :: b) = [a, b] :=
    splitOnChar_append (not_mem_of_all_digits (by decide) ha)
      (not_mem_of_all_digits (by decide) hb)
  have hcond : (a.all Char.isDigit && b.all Char.isDigit
      && (!a.isEmpty || !b.isEmpty)) = true := by
    rcases hne with h | h <;> simp [ha, hb, h]
  simp [parseUnsignedNum, allDigits_dot_false hmem, hsplit, hcond]

theorem literalEval_digits {t : Tok} (h : allDigits t = true) :
    literalEval t = .ok (.int (digitsToNat t : Int)) := by
  cases t with
  | nil => simp [allDigits] at h
  | cons c r =>
    have hall := allDigits_all h
    have hc : c.isDigit = true := by
      simpa using (List.all_eq_true.mp hall) c (by simp)
    have h1 : ¬ c = '-' := fun e => by rw [e] at hc; exact absurd hc (by decide)
    have h2 : ¬ c = '+' := fun e => by rw [e] at hc; exact absurd hc (by decide)
    have hT : ¬ (c :: r = [ 'T', 'r', 'u', 'e' ]) := fun he => by
      rw [he] at hall; exact absurd hall (by decide)
    have hF : ¬ (c :: r = [ 'F', 'a', 'l', 's', 'e' ]) := fun he => by
      rw [he] at hall; exact absurd hall (by decide)
    have hN : ¬ (c :: r = [ 'N', 'o', 'n', 'e' ]) := fun he => by
      rw [he] at hall; exact absurd hall (by decide)
    simp [literalEval, h1, h2, hT, hF, hN, parseUnsignedNum_digits h]

theorem literalEval_neg_digits {t : Tok} (h : allDigits t = true) :
    literalEval ('-' :: t) = .ok (.int (-(digitsToNat t : Int))) := by
  simp [literalEval, parseUnsignedNum_digits h, Option.bind, PyVal.neg]

theorem literalEval_dec {a b : List Char}
    (ha : a.all Char.isDigit = true) (hb : b.all Char.isDigit = true)
    (hne : a.isEmpty = false ∨ b.isEmpty = false) :
    literalEval (a ++ '.' :: b) =
      .ok (.float (digitsToNat a * 10 ^ b.length + digitsToNat b : Int)
           b.length) := by
  have hpu := parseUnsignedNum_dec ha hb hne
  have hmem : ('.' : Char) ∈ a ++ '.' :: b := by simp
  have hT : ¬ (a ++ '.' :: b = [ 'T', 'r', 'u', 'e' ]) := fun he => by
    rw [he] at hmem; exact absurd hmem (by decide)
  have hF : ¬ (a ++ '.' :: b = [ 'F', 'a', 'l', 's', 'e' ]) := fun he => by
    rw [he] at hmem; exact absurd hmem (by decide)
  have hN : ¬ (a ++ '.' :: b = [ 'N', 'o', 'n', 'e' ]) := fun he => by
    rw [he] at hmem; exact absurd hmem (by decide)
  cases a with
  | nil =>
    have h1 : ¬ ('.' : Char) = '-' := by decide
    have h2 : ¬ ('.' : Char) = '+' := by decide
    simp only [List.nil_append] at hpu hT hF hN ⊢
    simp [literalEval, h1, h2, hT, hF, hN, hpu]
  | cons c a' =>
    have hc : c.isDigit = true := by
      simpa using (List.all_eq_true.mp ha) c (by simp)
    have h1 : ¬ c = '-' := fun e => by rw [e] at hc; exact absurd hc (by decide)
    have h2 : ¬ c = '+' := fun e => by rw [e] at hc; exact absurd hc (by decide)
    simp only [List.cons_append] at hpu hT hF hN ⊢
    simp [literalEval, h1, h2, hT, hF, hN, hpu]

theorem literalEval_neg_dec {a b : List Char}
    (ha : a.all Char.isDigit = true) (hb : b.all Char.isDigit = true)
    (hne : a.isEmpty = false ∨ b.isEmpty = false) :
    literalEval ('-' :: (a ++ '.' :: b)) =
      .ok (.float (-(digitsToNat a * 10 ^ b.length + digitsToNat b : Int))
           b.length) := by
  simp [literalEval, parseUnsignedNum_dec ha hb hne, Option.bind, PyVal.neg]

theorem pyInt_dec_fails {a b : List Char}
    (ha : a.all Char.isDigit = true) :
    pyInt (a ++ '.' :: b) = .error .valueError := by
  have hmem : ('.' : Char) ∈ a ++ '.' :: b := by simp
  cases a with
  | nil =>
    have h1 : ¬ ('.' : Char) = '-' := by decide
    have h2 : ¬ ('.' : Char) = '+' := by decide
    simp only [List.nil_append] at hmem ⊢
    simp [pyInt, h1, h2, allDigits_dot_false hmem]
  | cons c a' =>
    have hc : c.isDigit = true := by
      simpa using (List.all_eq_true.mp ha) c (by simp)
    have h1 : ¬ c = '-' := fun e => by rw [e] at hc; exact absurd hc (by decide)
    have h2 : ¬ c = '+' := fun e => by rw [e] at hc; exact absurd hc (by decide)
    simp only [List.cons_append] at hmem ⊢
    simp [pyInt, h1, h2, allDigits_dot_false hmem]

/-- Claim C3 counterexample: the token `True` is not a numeric literal
(integer or decimal, optionally negative), yet the factor/offset field
parse accepts the line fragment `(True,0)` without any error, storing a
boolean — so "only numeric literals are accepted" is false of the code. -/
theorem c3_counterexample :
    isNumericLit "True".data = false
    ∧ parseFactorOffset "(True,0)".data = .ok (.bool true, .int 0)
    ∧ literalEval "True".data = .ok (.bool true) := by decide

/-- Claim C3 amended: the arbitration-id/frame-byte parser (`int`) accepts
exactly optionally-signed integer literals and rejects decimals with an
error, while the factor/offset/min/max parser (`ast.literal_eval`) accepts
optionally-negative integer and decimal literals — yielding an integer
when there is no fractional part and a float when there is one — but also
accepts some non-numeric literals (such as `True`) without error. -/
theorem c3_numeric_literals {t a b : Tok} (hd : allDigits t = true)
    (ha : a.all Char.isDigit = true) (hb : b.all Char.isDigit = true)
    (hne : a.isEmpty = false ∨ b.isEmpty = false) :
    (literalEval t = .ok (.int (digitsToNat t : Int))
      ∧ literalEval ('-' :: t) = .ok (.int (-(digitsToNat t : Int)))
      ∧ pyInt t = .ok (digitsToNat t : Int)
      ∧ pyInt ('-' :: t) = .ok (-(digitsToNat t : Int)))
    ∧ (literalEval (a ++ '.' :: b) =
        .ok (.float (digitsToNat a * 10 ^ b.length + digitsToNat b : Int)
             b.length)
      ∧ literalEval ('-' :: (a ++ '.' :: b)) =
        .ok (.float (-(digitsToNat a * 10 ^ b.length + digitsToNat b : Int))
             b.length)
      ∧ pyInt (a ++ '.' :: b) = .error .valueError)
    ∧ literalEval [ 'T', 'r', 'u', 'e' ] = .ok (.bool true) := by
  refine ⟨⟨literalEval_digits hd, literalEval_neg_digits hd,
    pyInt_digits hd, ?_⟩,
    ⟨literalEval_dec ha hb hne, literalEval_neg_dec ha hb hne,
     pyInt_dec_fails ha⟩, by decide⟩
  simp [pyInt, hd]

/-- Witness for C3's amended theorem at `40`, `-40`, `0.1` and `-0.1`. -/
theorem c3_witness :
    (literalEval "40".data = .ok (.int 40)
      ∧ literalEval "-40".data = .ok (.int (-40))
      ∧ pyInt "40".data = .ok 40
      ∧ pyInt "-40".data = .ok (-40))
    ∧ (literalEval "0.1".data = .ok (.float 1 1)
      ∧ literalEval "-0.1".data = .ok (.float (-1) 1)
      ∧ pyInt "0.1".data = .error .valueError)
    ∧ literalEval "True".data = .ok (.bool true) :=
  @c3_numeric_literals "40".data "0".data "1".data (by decide) (by decide)
    (by decide) (by decide)

/-! ## Claim C8 -/

/-- Claim C8: parsing the factor/offset token `(0.1,-40)` yields a factor
that is the float `0.1` (mantissa 1, one fractional digit, denoting the
rational 1/10) and an offset stored as the integer `-40`, numerically
equal to `-40`. -/
theorem c8_factor_offset :
    parseFactorOffset "(0.1,-40)".data = .ok (.float 1 1, .int (-40))
    ∧ (PyVal.float 1 1).ratVal? = some (0.1 : Rat)
    ∧ (PyVal.int (-40)).ratVal? = some (-40 : Rat) := by
  refine ⟨by decide, ?_, ?_⟩ <;> (simp [PyVal.ratVal?]; try norm_num)

/-! ## Claim C6 -/

/-- Claim C6: the spec's end-to-end scenario (two `BO_` messages with
signals, separated by a blank line) yields a Database with exactly the
keys 100 and 200; entry 100 holds exactly the signals `RPM` and `Temp`
with `RPM.length = 16`, `RPM.factor = 0.25` and `Temp.offset = -40`;
entry 200 holds exactly `Pressure` with `length = 16` and
`factor = 0.1`. -/
theorem c6_end_to_end :
    keysOf (get_can c6input) = some [100, 200]
    ∧ sigNamesOf (get_can c6input) 100 = some ["RPM".data, "Temp".data]
    ∧ sigNamesOf (get_can c6input) 200 = some ["Pressure".data]
    ∧ (sigOf (get_can c6input) 100 ("RPM".data)).map SigDef.length = some 16
    ∧ ((sigOf (get_can c6input) 100 ("RPM".data)).bind
        fun s => s.factor.ratVal?) = some (0.25 : Rat)
    ∧ ((sigOf (get_can c6input) 100 ("Temp".data)).bind
        fun s => s.offset.ratVal?) = some (-40 : Rat)
    ∧ (sigOf (get_can c6input) 200 ("Pressure".data)).map SigDef.length = some 16
    ∧ ((sigOf (get_can c6input) 200 ("Pressure".data)).bind
        fun s => s.factor.ratVal?) = some (0.1 : Rat) := by
  have hrpm : sigOf (get_can c6input) 100 ("RPM".data) =
      some ⟨15, 16, .float 25 2, .int 0, .int 0, .float 1638375 2,
            "\"engine".data, none⟩ := by decide
  have htemp : sigOf (get_can c6input) 100 ("Temp".data) =
      some ⟨7, 8, .int 1, .int (-40), .int (-40), .int 215,
            "\"coolant".data, none⟩ := by decide
  have hpres : sigOf (get_can c6input) 200 ("Pressure".data) =
      some ⟨31, 16, .float 1 1, .int 0, .int 0, .float 65535 1,
            "\"brake".data, none⟩ := by decide
  refine ⟨by decide, by decide, by decide, ?_, ?_, ?_, ?_, ?_⟩
  · rw [hrpm]
    rfl
  · rw [hrpm]
    simp [PyVal.ratVal?]
    try norm_num
  · rw [htemp]
    simp [PyVal.ratVal?]
    try norm_num
  · rw [hpres]
    rfl
  · rw [hpres]
    simp [PyVal.ratVal?]
    try norm_num
